import Mathlib

/-!
Verification of `resolve` (`src/resolve/app.py`), a one-shot utility that
scans text files for directives of the form `<comment> resolve: <hostname>`
and replaces the single dotted-quad address on such a line with the
address the hostname resolves to.

The embedding models:
* the compiled trigger pattern `re.escape(comment)` followed by
  `\s*resolve:\s*(\S+)$`
  used with `re.search` (`triggerSearch`);
* the compiled address pattern `(\d{1,3}\.\d{1,3}\.\d{1,3}\.\d{1,3})`
  used with `findall` (`findall`) and `sub` (`subAll`);
* the per-line body of `_resolve` (`processLineO`), its per-file loop
  (`processFileLines`) and the log records it emits (`fileLogs`);
* the traversal `_resolve` over a filesystem tree (`resolveEntry`) and the
  top-level loop of `main` (`mainLoop`, `mainRun`).

Lines are `List Char`, carrying their original terminator as the Python
line iteration does.  `gethostbyname` is an abstract resolver
`List Char → Option (List Char)`: `some ip` for a successful lookup,
`none` when the call raises (the code catches every exception).
-/

namespace Resolve

/-- Characters of the regex class `\s` (ASCII portion of the Python class). -/
def isSpaceCh (c : Char) : Bool :=
  c = ' ' || c = '\t' || c = '\n' || c = '\r' || c = '\x0b' || c = '\x0c'

/-- Characters of the regex class `\d`. -/
def isDigitCh (c : Char) : Bool :=
  '0' ≤ c && c ≤ '9'

/-- One `\d{1,3}\.` component of the address pattern, matched at the head of
`s`.  The greedy quantifier with backtracking accepts exactly a maximal
digit run of length 1–3 followed by a literal dot: any backtrack leaves the
next character a digit, which cannot be the dot. -/
def quadDot (s : List Char) : Option (List Char × List Char) :=
  let d := s.takeWhile isDigitCh
  let r := s.dropWhile isDigitCh
  if 1 ≤ d.length ∧ d.length ≤ 3 then
    match r with
    | '.' :: r2 => some (d ++ ['.'], r2)
    | _ => none
  else none

/-- The final `\d{1,3}` of the address pattern: greedily takes up to three
digits of the leading digit run (at least one). -/
def quadLast (s : List Char) : Option (List Char × List Char) :=
  let d := s.takeWhile isDigitCh
  let r := s.dropWhile isDigitCh
  if d.length = 0 then none
  else some (d.take 3, d.drop 3 ++ r)

/-- Attempt to match `replace_re = (\d{1,3}\.\d{1,3}\.\d{1,3}\.\d{1,3})`
at the head of `s`; on success returns the matched text and the rest. -/
def matchQuad (s : List Char) : Option (List Char × List Char) :=
  match quadDot s with
  | none => none
  | some (a, s1) =>
    match quadDot s1 with
    | none => none
    | some (b, s2) =>
      match quadDot s2 with
      | none => none
      | some (c, s3) =>
        match quadLast s3 with
        | none => none
        | some (d, s4) => some (a ++ b ++ c ++ d, s4)

/-- Model of `replace_re.findall(line)`: left-to-right scan collecting
non-overlapping matches, restarting one character later on failure.
The fuel argument (instantiated with the line length) makes the
recursion structural; a match always consumes at least one character,
so the fuel never runs out. -/
def findallFuel : Nat → List Char → List (List Char)
  | 0, _ => []
  | _ + 1, [] => []
  | fuel + 1, c :: s =>
    match matchQuad (c :: s) with
    | some (m, r) => m :: findallFuel fuel r
    | none => findallFuel fuel s

/-- Model of `replace_re.findall(line)`. -/
def findall (s : List Char) : List (List Char) :=
  findallFuel s.length s

/-- Model of `replace_re.sub(ip, line)`: the same scan as `findall`, emitting `ip`
in place of each match.  (`gethostbyname` output is a plain dotted-quad
string, so the replacement is literal text.) -/
def subFuel (ip : List Char) : Nat → List Char → List Char
  | 0, s => s
  | _ + 1, [] => []
  | fuel + 1, c :: s =>
    match matchQuad (c :: s) with
    | some (_, r) => ip ++ subFuel ip fuel r
    | none => c :: subFuel ip fuel s

/-- Model of `replace_re.sub(ip, line)`. -/
def subAll (ip s : List Char) : List Char :=
  subFuel ip s.length s

/-- Consume the literal `lit` at the head of `s` (the comment string is
regex-escaped, so it matches literally). -/
def eatLit : List Char → List Char → Option (List Char)
  | [], s => some s
  | _ :: _, [] => none
  | c :: cs, d :: ds => if c = d then eatLit cs ds else none

/-- The literal `resolve:` of the trigger pattern. -/
def resolveKw : List Char :=
  ['r', 'e', 's', 'o', 'l', 'v', 'e', ':']

/-- Attempt `trigger_re = ESC(comment)\s*resolve:\s*(\S+)$` with the match
forced to begin at the head of `s`; returns the captured group.  Both
`\s*` occurrences are maximal (the following required character is
non-space), `\S+` is the maximal non-space run, and `$` demands the end
of the string or a single final newline. -/
def triggerAt (comment s : List Char) : Option (List Char) :=
  match eatLit comment s with
  | none => none
  | some s1 =>
    match eatLit resolveKw (s1.dropWhile isSpaceCh) with
    | none => none
    | some s3 =>
      let s4 := s3.dropWhile isSpaceCh
      let tok := s4.takeWhile (fun c => !isSpaceCh c)
      let rest := s4.dropWhile (fun c => !isSpaceCh c)
      if tok ≠ [] ∧ (rest = [] ∨ rest = ['\n']) then some tok else none

/-- Model of `trigger_re.search(line)`: try each start position left to right. -/
def triggerSearch (comment : List Char) : List Char → Option (List Char)
  | [] => triggerAt comment []
  | c :: s =>
    match triggerAt comment (c :: s) with
    | some tok => some tok
    | none => triggerSearch comment s

/-- What `_resolve` does (and logs) for one line of a file. -/
inductive Outcome where
  /-- No trigger match: the line passes through, nothing is logged. -/
  | plain : Outcome
  /-- Trigger matched but `len(replace_re.findall(line)) = count ≠ 1`:
  warning `"Unable to resolve domain on line %d of %s. Found %d IP
  addresses, expected 1"`. -/
  | ambiguous (count : Nat) : Outcome
  /-- Call `gethostbyname(host)` returned `ip`; the line is substituted. -/
  | resolved (host ip : List Char) : Outcome
  /-- Call `gethostbyname(host)` raised: error `"Failed to resolve %s on line
  %d of %s."`, line unchanged. -/
  | failed (host : List Char) : Outcome

/-- The loop body of `_resolve` for one input line: the written line and
the logged outcome. -/
def processLineO (resolver : List Char → Option (List Char))
    (comment line : List Char) : List Char × Outcome :=
  match triggerSearch comment line with
  | none => (line, .plain)
  | some host =>
    let ips := findall line
    if ips.length ≠ 1 then (line, .ambiguous ips.length)
    else
      match resolver host with
      | some ip => (subAll ip line, .resolved host ip)
      | none => (line, .failed host)

/-- The line written to the scratch output for one input line. -/
def processLine (resolver : List Char → Option (List Char))
    (comment line : List Char) : List Char :=
  (processLineO resolver comment line).1

/-- The content of the scratch file that replaces the original: every
input line processed in order. -/
def processFileLines (resolver : List Char → Option (List Char))
    (comment : List Char) (lines : List (List Char)) : List (List Char) :=
  lines.map (processLine resolver comment)

/-- Log records (file, 1-indexed line number, outcome) for the lines of a
file, skipping lines that log nothing; `n` is the number of the first
line of `ls`. -/
def fileLogsAux (resolver : List Char → Option (List Char))
    (comment : List Char) (path : String) :
    Nat → List (List Char) → List (String × Nat × Outcome)
  | _, [] => []
  | n, l :: ls =>
    match (processLineO resolver comment l).2 with
    | .plain => fileLogsAux resolver comment path (n + 1) ls
    | o => (path, n, o) :: fileLogsAux resolver comment path (n + 1) ls

/-- Per-line log records of rewriting one file (line numbers start at 1,
as in `_resolve`). -/
def fileLogs (resolver : List Char → Option (List Char))
    (comment : List Char) (path : String) (lines : List (List Char)) :
    List (String × Nat × Outcome) :=
  fileLogsAux resolver comment path 1 lines

/-- The run configuration built by `parse_args`, together with the
abstract resolver standing for `gethostbyname`. -/
structure Config where
  recursive : Bool
  backup : Bool
  comment : List Char
  resolver : List Char → Option (List Char)

/-- A filesystem node as `_resolve` distinguishes them: a regular file
with its lines, a directory with its children in listing order, or a
path that fails the `path.exists()` check (a missing top-level input, or
a dangling symlink met during traversal). -/
inductive Entry where
  | file (name : String) (lines : List (List Char)) : Entry
  | dir (name : String) (children : List Entry) : Entry
  | broken (name : String) : Entry

/-- The directory entries a processed regular file leaves behind: the
optional backup copy `<name>.bk` (`BACKUP_EXT = ".bk"`, written before
any edit) and the rewritten file that atomically replaced the original. -/
def fileResultEntries (cfg : Config) (nm : String)
    (lines : List (List Char)) : List Entry :=
  let newFile := Entry.file nm (processFileLines cfg.resolver cfg.comment lines)
  if cfg.backup then Entry.file (nm ++ ".bk") lines :: [newFile]
  else [newFile]

mutual

/-- Model of `_resolve(path, recursive, backup, trigger_re, replace_re)`: returns
the entries replacing the node, and the boolean result.  A `broken` path
fails the `exists()` check and returns `False`; a directory returns
`False` without `recursive`, and otherwise traverses its children; a
regular file is rewritten and returns `True`. -/
def resolveEntry (cfg : Config) : Entry → List Entry × Bool
  | .broken nm => ([.broken nm], false)
  | .file nm lines => (fileResultEntries cfg nm lines, true)
  | .dir nm cs =>
    if cfg.recursive then
      match resolveChildren cfg cs with
      | (cs2, ok) => ([.dir nm cs2], ok)
    else ([.dir nm cs], false)

/-- The `for child in path.iterdir()` loop of `_resolve`: children in
listing order; the first child whose recursive call returns `False`
makes the loop `return False` at once, leaving the remaining siblings
untouched. -/
def resolveChildren (cfg : Config) : List Entry → List Entry × Bool
  | [] => ([], true)
  | e :: rest =>
    match resolveEntry cfg e with
    | (es, true) =>
      match resolveChildren cfg rest with
      | (rs, ok) => (es ++ rs, ok)
    | (es, false) => (es ++ rest, false)

end

/-- The loop of `main`: `for path in args.input: ... if not _resolve(...):
break` — inputs in command-line order, stopping after the first failed
traversal and leaving the remaining inputs untouched. -/
def mainLoop (cfg : Config) : List Entry → List Entry
  | [] => []
  | e :: rest =>
    match resolveEntry cfg e with
    | (es, true) => es ++ mainLoop cfg rest
    | (es, false) => es ++ rest

/-- A whole run of `main`/`run`: the resulting filesystem entries and the
process exit status.  `main` contains no `sys.exit` call and simply
falls out of (or breaks out of) its loop, so the interpreter exits with
status 0 on every run that raises no exception. -/
def mainRun (cfg : Config) (inputs : List Entry) : List Entry × Nat :=
  (mainLoop cfg inputs, 0)

/-! ### Basic facts about the address-pattern matcher -/

theorem quadDot_decomp {s m r : List Char} (h : quadDot s = some (m, r)) :
    s = m ++ r ∧ m ≠ [] := by
  simp only [quadDot] at h
  split at h
  · split at h
    · next r2 heq =>
      simp only [Option.some.injEq, Prod.mk.injEq] at h
      obtain ⟨hm, hr⟩ := h
      subst hm hr
      constructor
      · have hsplit : s.takeWhile isDigitCh ++ s.dropWhile isDigitCh = s :=
          List.takeWhile_append_dropWhile isDigitCh s
        conv_lhs => rw [← hsplit]
        rw [heq]
        simp
      · simp
    · exact absurd h (by simp)
  · exact absurd h (by simp)

theorem quadLast_decomp {s m r : List Char} (h : quadLast s = some (m, r)) :
    s = m ++ r ∧ m ≠ [] := by
  simp only [quadLast] at h
  split at h
  · exact absurd h (by simp)
  · next hlen =>
    simp only [Option.some.injEq, Prod.mk.injEq] at h
    obtain ⟨hm, hr⟩ := h
    subst hm hr
    constructor
    · have hsplit : s.takeWhile isDigitCh ++ s.dropWhile isDigitCh = s :=
        List.takeWhile_append_dropWhile isDigitCh s
      conv_lhs => rw [← hsplit]
      rw [← List.append_assoc, List.take_append_drop]
    · intro hnil
      have h1 : (List.take 3 (s.takeWhile isDigitCh)).length = 0 := by
        rw [hnil]; rfl
      rw [List.length_take] at h1
      omega

theorem matchQuad_decomp {s m r : List Char} (h : matchQuad s = some (m, r)) :
    s = m ++ r ∧ m ≠ [] := by
  simp only [matchQuad] at h
  split at h
  · exact absurd h (by simp)
  · next a s1 h1 =>
    split at h
    · exact absurd h (by simp)
    · next b s2 h2 =>
      split at h
      · exact absurd h (by simp)
      · next c s3 h3 =>
        split at h
        · exact absurd h (by simp)
        · next d s4 h4 =>
          simp only [Option.some.injEq, Prod.mk.injEq] at h
          obtain ⟨hm, hr⟩ := h
          subst hm hr
          obtain ⟨e1, n1⟩ := quadDot_decomp h1
          obtain ⟨e2, _⟩ := quadDot_decomp h2
          obtain ⟨e3, _⟩ := quadDot_decomp h3
          obtain ⟨e4, _⟩ := quadLast_decomp h4
          constructor
          · rw [e1, e2, e3, e4]
            simp [List.append_assoc]
          · simp [n1]

theorem matchQuad_rest_lt {s m r : List Char} (h : matchQuad s = some (m, r)) :
    r.length < s.length := by
  obtain ⟨hs, hm⟩ := matchQuad_decomp h
  subst hs
  cases m with
  | nil => exact absurd rfl hm
  | cons c cs => simp [List.length_append]; omega

/-! ### `sub` against `findall`: substitution on lines with a known
number of address matches -/

theorem subFuel_of_findall_nil (ip : List Char) :
    ∀ (fuel : Nat) (s : List Char), s.length ≤ fuel →
      findallFuel fuel s = [] → subFuel ip fuel s = s := by
  intro fuel
  induction fuel with
  | zero => intro s _ _; rfl
  | succ fuel ih =>
    intro s hlen hf
    cases s with
    | nil => rfl
    | cons c s' =>
      cases hq : matchQuad (c :: s') with
      | some p =>
        obtain ⟨m, r⟩ := p
        simp only [findallFuel, hq] at hf
        exact absurd hf (by simp)
      | none =>
        simp only [findallFuel, hq] at hf
        simp only [subFuel, hq]
        have hlen' : s'.length ≤ fuel := by
          simp only [List.length_cons] at hlen; omega
        rw [ih s' hlen' hf]

theorem subFuel_of_findall_one (ip : List Char) :
    ∀ (fuel : Nat) (s a : List Char), s.length ≤ fuel →
      findallFuel fuel s = [a] →
      ∃ p q, s = p ++ a ++ q ∧ subFuel ip fuel s = p ++ ip ++ q := by
  intro fuel
  induction fuel with
  | zero =>
    intro s a hlen hf
    simp only [findallFuel] at hf
    exact absurd hf (by simp)
  | succ fuel ih =>
    intro s a hlen hf
    cases s with
    | nil =>
      simp only [findallFuel] at hf
      exact absurd hf (by simp)
    | cons c s' =>
      cases hq : matchQuad (c :: s') with
      | some p =>
        obtain ⟨m, r⟩ := p
        simp only [findallFuel, hq, List.cons.injEq] at hf
        obtain ⟨hm, hr⟩ := hf
        have hlt := matchQuad_rest_lt hq
        have hrfuel : r.length ≤ fuel := by
          simp only [List.length_cons] at hlen hlt; omega
        refine ⟨[], r, ?_, ?_⟩
        · subst hm
          simpa using (matchQuad_decomp hq).1
        · simp only [subFuel, hq]
          rw [subFuel_of_findall_nil ip fuel r hrfuel hr]
          simp
      | none =>
        simp only [findallFuel, hq] at hf
        have hlen' : s'.length ≤ fuel := by
          simp only [List.length_cons] at hlen; omega
        obtain ⟨p, q, h1, h2⟩ := ih s' a hlen' hf
        refine ⟨c :: p, q, ?_, ?_⟩
        · simp [h1]
        · simp only [subFuel, hq]
          rw [h2]
          simp

theorem subAll_of_findall_one (ip s a : List Char) (h : findall s = [a]) :
    ∃ p q, s = p ++ a ++ q ∧ subAll ip s = p ++ ip ++ q :=
  subFuel_of_findall_one ip s.length s a (Nat.le_refl _) h

/-! ### Per-line behaviour of `_resolve` by case -/

theorem processLineO_plain {resolver : List Char → Option (List Char)}
    {comment line : List Char} (h : triggerSearch comment line = none) :
    processLineO resolver comment line = (line, .plain) := by
  simp [processLineO, h]

theorem processLineO_ambiguous (resolver : List Char → Option (List Char))
    {comment line host : List Char} {k : Nat}
    (h1 : triggerSearch comment line = some host)
    (h2 : (findall line).length = k) (h3 : k ≠ 1) :
    processLineO resolver comment line = (line, .ambiguous k) := by
  simp [processLineO, h1, h2, h3]

theorem processLineO_resolved {resolver : List Char → Option (List Char)}
    {comment line host ip : List Char}
    (h1 : triggerSearch comment line = some host)
    (h2 : (findall line).length = 1)
    (h3 : resolver host = some ip) :
    processLineO resolver comment line = (subAll ip line, .resolved host ip) := by
  simp [processLineO, h1, h2, h3]

theorem processLineO_failed {resolver : List Char → Option (List Char)}
    {comment line host : List Char}
    (h1 : triggerSearch comment line = some host)
    (h2 : (findall line).length = 1)
    (h3 : resolver host = none) :
    processLineO resolver comment line = (line, .failed host) := by
  simp [processLineO, h1, h2, h3]

/-- When every lookup raises, every line passes through untouched. -/
theorem processLine_id_of_resolver_none
    {resolver : List Char → Option (List Char)}
    (hall : ∀ h, resolver h = none) (comment line : List Char) :
    processLine resolver comment line = line := by
  unfold processLine
  cases htr : triggerSearch comment line with
  | none => rw [processLineO_plain htr]
  | some host =>
    rcases hk : (findall line).length with _ | _ | k
    · rw [processLineO_ambiguous resolver htr hk (by omega)]
    · rw [processLineO_failed htr hk (hall host)]
    · rw [processLineO_ambiguous resolver htr hk (by omega)]

theorem map_get?_eq {α β : Type} (f : α → β) :
    ∀ (l : List α) (i : Nat), (l.map f).get? i = (l.get? i).map f := by
  intro l
  induction l with
  | nil => intro i; simp
  | cons a l ih =>
    intro i
    cases i with
    | zero => simp
    | succ i => simp [ih i]

theorem fileLogsAux_mem (resolver : List Char → Option (List Char))
    (comment : List Char) (path : String) :
    ∀ (ls : List (List Char)) (i n : Nat) (line : List Char) (o : Outcome),
      ls.get? i = some line →
      (processLineO resolver comment line).2 = o →
      o ≠ .plain →
      (path, n + i, o) ∈ fileLogsAux resolver comment path n ls := by
  intro ls
  induction ls with
  | nil => intro i n line o hi _ _; simp at hi
  | cons l ls ih =>
    intro i n line o hi ho hne
    cases i with
    | zero =>
      simp only [List.get?_cons_zero, Option.some.injEq] at hi
      subst hi
      rw [Nat.add_zero]
      cases o with
      | plain => exact absurd rfl hne
      | ambiguous k =>
        simp only [fileLogsAux, ho]
        exact List.mem_cons_self _ _
      | resolved h2 i2 =>
        simp only [fileLogsAux, ho]
        exact List.mem_cons_self _ _
      | failed h2 =>
        simp only [fileLogsAux, ho]
        exact List.mem_cons_self _ _
    | succ i =>
      rw [List.get?_cons_succ] at hi
      have hmem := ih i (n + 1) line o hi ho hne
      have heq : n + (i + 1) = (n + 1) + i := by omega
      rw [heq]
      cases hx : (processLineO resolver comment l).2 with
      | plain =>
        simp only [fileLogsAux, hx]
        exact hmem
      | ambiguous k =>
        simp only [fileLogsAux, hx]
        exact List.mem_cons_of_mem _ hmem
      | resolved h2 i2 =>
        simp only [fileLogsAux, hx]
        exact List.mem_cons_of_mem _ hmem
      | failed h2 =>
        simp only [fileLogsAux, hx]
        exact List.mem_cons_of_mem _ hmem

/-! ### Traversal -/

theorem resolveEntry_broken (cfg : Config) (nm : String) :
    resolveEntry cfg (.broken nm) = ([.broken nm], false) := by
  simp [resolveEntry]

theorem resolveEntry_file (cfg : Config) (nm : String)
    (lines : List (List Char)) :
    resolveEntry cfg (.file nm lines) = (fileResultEntries cfg nm lines, true) := by
  simp [resolveEntry]

theorem resolveEntry_dir_norec (cfg : Config) (nm : String)
    (cs : List Entry) (h : cfg.recursive = false) :
    resolveEntry cfg (.dir nm cs) = ([.dir nm cs], false) := by
  simp [resolveEntry, h]

theorem resolveEntry_dir_rec (cfg : Config) (nm : String)
    (cs : List Entry) (h : cfg.recursive = true) :
    resolveEntry cfg (.dir nm cs)
      = ([.dir nm (resolveChildren cfg cs).1], (resolveChildren cfg cs).2) := by
  simp [resolveEntry, h]

/-- The child loop of `_resolve`, when children `pre` all succeed and then
`bad` fails: `pre` is processed in order, the result of `bad` is kept, and the
siblings `post` after it are left exactly as they were. -/
theorem resolveChildren_append_fail (cfg : Config) (bad : Entry)
    (post : List Entry) :
    ∀ pre : List Entry, (∀ e ∈ pre, (resolveEntry cfg e).2 = true) →
      (resolveEntry cfg bad).2 = false →
      resolveChildren cfg (pre ++ bad :: post)
        = ((pre.map fun e => (resolveEntry cfg e).1).flatten
            ++ (resolveEntry cfg bad).1 ++ post, false) := by
  intro pre
  induction pre with
  | nil =>
    intro _ hbad
    cases hb : resolveEntry cfg bad with
    | mk es ok =>
      rw [hb] at hbad
      simp only at hbad
      subst hbad
      simp [resolveChildren, hb]
  | cons e pre ih =>
    intro hpre hbad
    have he : (resolveEntry cfg e).2 = true := hpre e (List.mem_cons_self _ _)
    have hrest := ih (fun x hx => hpre x (List.mem_cons_of_mem _ hx)) hbad
    cases hE : resolveEntry cfg e with
    | mk es ok =>
      rw [hE] at he
      simp only at he
      subst he
      simp only [List.cons_append]
      simp only [resolveChildren, hE, hrest]
      simp [hE, List.append_assoc]

/-- The loop of `main`, when inputs `pre` all succeed and then `bad`
fails: the loop breaks and the remaining inputs `post` stay untouched. -/
theorem mainLoop_append_fail (cfg : Config) (bad : Entry)
    (post : List Entry) :
    ∀ pre : List Entry, (∀ e ∈ pre, (resolveEntry cfg e).2 = true) →
      (resolveEntry cfg bad).2 = false →
      mainLoop cfg (pre ++ bad :: post)
        = (pre.map fun e => (resolveEntry cfg e).1).flatten
            ++ (resolveEntry cfg bad).1 ++ post := by
  intro pre
  induction pre with
  | nil =>
    intro _ hbad
    cases hb : resolveEntry cfg bad with
    | mk es ok =>
      rw [hb] at hbad
      simp only at hbad
      subst hbad
      simp [mainLoop, hb]
  | cons e pre ih =>
    intro hpre hbad
    have he : (resolveEntry cfg e).2 = true := hpre e (List.mem_cons_self _ _)
    have hrest := ih (fun x hx => hpre x (List.mem_cons_of_mem _ hx)) hbad
    cases hE : resolveEntry cfg e with
    | mk es ok =>
      rw [hE] at he
      simp only at he
      subst he
      simp only [List.cons_append]
      simp only [mainLoop, hE, hrest]
      simp [hE, List.append_assoc]

/-! ### Concrete fixtures used by the witnesses -/

/-- A resolver knowing one host, standing for a successful
`gethostbyname("example.test") = "93.184.216.34"`. -/
def resolverExample : List Char → Option (List Char) :=
  fun h => if h = "example.test".data then some "93.184.216.34".data else none

/-- A resolver for which every lookup raises. -/
def resolverNone : List Char → Option (List Char) :=
  fun _ => none

/-- Default flags: no `-r`, no `-b`, comment `#`. -/
def cfgPlain : Config :=
  { recursive := false, backup := false, comment := "#".data,
    resolver := resolverNone }

/-- Flag `-r` set. -/
def cfgRec : Config :=
  { recursive := true, backup := false, comment := "#".data,
    resolver := resolverNone }

/-- Flag `-b` set. -/
def cfgBackup : Config :=
  { recursive := false, backup := true, comment := "#".data,
    resolver := resolverExample }

/-! ### The claims -/

/-- C1: an input line that matches the trigger pattern, contains exactly
one dotted-quad address match, and whose captured hostname resolves, is
written to the scratch output as the input line with that single address
occurrence replaced by the exact resolved-address string; the rest of
the line (prefix and suffix) is unchanged. -/
theorem trigger_single_address_replaced
    (resolver : List Char → Option (List Char))
    (comment line host a ip : List Char)
    (h1 : triggerSearch comment line = some host)
    (h2 : findall line = [a])
    (h3 : resolver host = some ip) :
    ∃ p q, line = p ++ a ++ q ∧
      processLine resolver comment line = p ++ ip ++ q := by
  have hlen : (findall line).length = 1 := by rw [h2]; rfl
  unfold processLine
  rw [processLineO_resolved h1 hlen h3]
  exact subAll_of_findall_one ip line a h2

/-- Witness for C1 on `10.0.0.1 # resolve: example.test\n` with
`example.test ↦ 93.184.216.34`. -/
theorem trigger_single_address_replaced_witness :
    ∃ p q, "10.0.0.1 # resolve: example.test\n".data
        = p ++ "10.0.0.1".data ++ q ∧
      processLine resolverExample "#".data
          "10.0.0.1 # resolve: example.test\n".data
        = p ++ "93.184.216.34".data ++ q :=
  trigger_single_address_replaced resolverExample "#".data
    "10.0.0.1 # resolve: example.test\n".data
    "example.test".data "10.0.0.1".data "93.184.216.34".data
    (by decide) (by decide) (by decide)

/-- C2: an input line that does not match the trigger pattern is written
to the output byte-for-byte identical, terminator included (the line
carries its original terminator as part of its content). -/
theorem non_trigger_line_identity
    (resolver : List Char → Option (List Char)) (comment : List Char)
    (lines : List (List Char)) (i : Nat) (line : List Char)
    (hi : lines.get? i = some line)
    (h : triggerSearch comment line = none) :
    processLine resolver comment line = line ∧
    (processFileLines resolver comment lines).get? i = some line := by
  have hid : processLine resolver comment line = line := by
    unfold processLine
    rw [processLineO_plain h]
  refine ⟨hid, ?_⟩
  unfold processFileLines
  rw [map_get?_eq, hi]
  simp [hid]

/-- Witness for C2 on the non-trigger line `server 10.0.0.1\n`. -/
theorem non_trigger_line_identity_witness :
    processLine resolverNone "#".data "server 10.0.0.1\n".data
        = "server 10.0.0.1\n".data ∧
    (processFileLines resolverNone "#".data
        ["server 10.0.0.1\n".data]).get? 0
      = some "server 10.0.0.1\n".data :=
  non_trigger_line_identity resolverNone "#".data
    ["server 10.0.0.1\n".data] 0 "server 10.0.0.1\n".data
    (by decide) (by decide)

/-- C3 counterexample: the single top-level input `gone.conf` does not
exist; the traversal reports failure, yet the process exit status of the
run is 0 — `main` never sets a non-zero exit code, refuting the claim
that such a run terminates with a non-zero exit code. -/
theorem missing_input_exit_zero_counterexample :
    (resolveEntry cfgPlain (.broken "gone.conf")).2 = false ∧
    (mainRun cfgPlain [.broken "gone.conf"]).2 = 0 ∧
    ¬ (mainRun cfgPlain [.broken "gone.conf"]).2 ≠ 0 :=
  ⟨by simp [resolveEntry_broken], rfl, by simp [mainRun]⟩

/-- C3 (amended): when a top-level input path does not exist, or is a
directory given without the recursive flag, the traversal reports
failure and the run stops processing the remaining top-level inputs —
but the process still exits with status 0. -/
theorem failed_traversal_stops_run_exit_zero (cfg : Config) (nm : String)
    (cs : List Entry) (e : Entry) (rest : List Entry) :
    (resolveEntry cfg (.broken nm)).2 = false ∧
    (cfg.recursive = false → (resolveEntry cfg (.dir nm cs)).2 = false) ∧
    ((resolveEntry cfg e).2 = false →
      mainRun cfg (e :: rest) = ((resolveEntry cfg e).1 ++ rest, 0)) := by
  refine ⟨by simp [resolveEntry_broken],
    fun h => by simp [resolveEntry_dir_norec cfg nm cs h],
    fun h => ?_⟩
  cases hE : resolveEntry cfg e with
  | mk es ok =>
    rw [hE] at h
    simp only at h
    subst h
    simp [mainRun, mainLoop, hE]

/-- Witness for the amended C3: a missing input followed by a second
input; the failure stops the loop, the second input stays untouched, the
exit status is 0. -/
theorem failed_traversal_stops_run_exit_zero_witness :
    (resolveEntry cfgPlain (.dir "etc" [])).2 = false ∧
    mainRun cfgPlain (.broken "gone.conf" :: [.file "b.conf" []])
      = ((resolveEntry cfgPlain (.broken "gone.conf")).1
          ++ [.file "b.conf" []], 0) :=
  ⟨(failed_traversal_stops_run_exit_zero cfgPlain "etc" []
      (.broken "gone.conf") [.file "b.conf" []]).2.1 rfl,
   (failed_traversal_stops_run_exit_zero cfgPlain "etc" []
      (.broken "gone.conf") [.file "b.conf" []]).2.2
      (by simp [resolveEntry_broken])⟩

/-- C4: a trigger line on which the address-pattern count is `k ≠ 1` is
written to the output unchanged, no resolution is attempted (the logged
outcome is the warning, not a resolution), and a warning record naming
the file, the 1-indexed line number and the observed count `k` is
logged. -/
theorem ambiguous_count_line_unchanged_warned
    (resolver : List Char → Option (List Char)) (comment : List Char)
    (path : String) (lines : List (List Char)) (i : Nat)
    (line host : List Char) (k : Nat)
    (hi : lines.get? i = some line)
    (h1 : triggerSearch comment line = some host)
    (h2 : (findall line).length = k) (h3 : k ≠ 1) :
    (processFileLines resolver comment lines).get? i = some line ∧
    (path, i + 1, Outcome.ambiguous k)
      ∈ fileLogs resolver comment path lines := by
  have hO := processLineO_ambiguous resolver h1 h2 h3
  constructor
  · unfold processFileLines
    rw [map_get?_eq, hi]
    simp [processLine, hO]
  · have hm := fileLogsAux_mem resolver comment path lines i 1 line
      (Outcome.ambiguous k) hi (by rw [hO]) (by simp)
    rwa [Nat.add_comm 1 i] at hm

/-- Witness for C4 on `1.2.3.4 5.6.7.8 # resolve: h\n` (two addresses,
count 2). -/
theorem ambiguous_count_line_unchanged_warned_witness :
    (processFileLines resolverNone "#".data
        ["1.2.3.4 5.6.7.8 # resolve: h\n".data]).get? 0
      = some "1.2.3.4 5.6.7.8 # resolve: h\n".data ∧
    ("app.conf", 0 + 1, Outcome.ambiguous 2)
      ∈ fileLogs resolverNone "#".data "app.conf"
          ["1.2.3.4 5.6.7.8 # resolve: h\n".data] :=
  ambiguous_count_line_unchanged_warned resolverNone "#".data "app.conf"
    ["1.2.3.4 5.6.7.8 # resolve: h\n".data] 0
    "1.2.3.4 5.6.7.8 # resolve: h\n".data "h".data 2
    (by decide) (by decide) (by decide) (by decide)

/-- C5: a trigger line with exactly one address match whose hostname
fails to resolve is written unchanged, an error record naming the host,
file and line is logged, and — with resolution still failing — re-running
the rewrite on the resulting content reproduces it exactly (idempotence
under failure). -/
theorem resolution_failure_unchanged_idempotent
    (resolver : List Char → Option (List Char)) (comment : List Char)
    (path : String) (lines : List (List Char)) (i : Nat)
    (line host : List Char)
    (hi : lines.get? i = some line)
    (h1 : triggerSearch comment line = some host)
    (h2 : (findall line).length = 1)
    (h3 : resolver host = none) :
    (processFileLines resolver comment lines).get? i = some line ∧
    (path, i + 1, Outcome.failed host)
      ∈ fileLogs resolver comment path lines ∧
    ((∀ h, resolver h = none) →
      processFileLines resolver comment
          (processFileLines resolver comment lines)
        = processFileLines resolver comment lines) := by
  have hO := processLineO_failed h1 h2 h3
  refine ⟨?_, ?_, ?_⟩
  · unfold processFileLines
    rw [map_get?_eq, hi]
    simp [processLine, hO]
  · have hm := fileLogsAux_mem resolver comment path lines i 1 line
      (Outcome.failed host) hi (by rw [hO]) (by simp)
    rwa [Nat.add_comm 1 i] at hm
  · intro hall
    have hmap : ∀ ls : List (List Char),
        ls.map (processLine resolver comment) = ls := by
      intro ls
      induction ls with
      | nil => rfl
      | cons x xs ihx =>
        simp [processLine_id_of_resolver_none hall, ihx]
    unfold processFileLines
    rw [hmap]

/-- Witness for C5 on `10.0.0.1 # resolve: db.internal\n` with a resolver
for which every lookup raises. -/
theorem resolution_failure_unchanged_idempotent_witness :
    (processFileLines resolverNone "#".data
        ["10.0.0.1 # resolve: db.internal\n".data]).get? 0
      = some "10.0.0.1 # resolve: db.internal\n".data ∧
    ("app.conf", 0 + 1, Outcome.failed "db.internal".data)
      ∈ fileLogs resolverNone "#".data "app.conf"
          ["10.0.0.1 # resolve: db.internal\n".data] ∧
    processFileLines resolverNone "#".data
        (processFileLines resolverNone "#".data
          ["10.0.0.1 # resolve: db.internal\n".data])
      = processFileLines resolverNone "#".data
          ["10.0.0.1 # resolve: db.internal\n".data] :=
  ⟨(resolution_failure_unchanged_idempotent resolverNone "#".data "app.conf"
      ["10.0.0.1 # resolve: db.internal\n".data] 0
      "10.0.0.1 # resolve: db.internal\n".data "db.internal".data
      (by decide) (by decide) (by decide) rfl).1,
   (resolution_failure_unchanged_idempotent resolverNone "#".data "app.conf"
      ["10.0.0.1 # resolve: db.internal\n".data] 0
      "10.0.0.1 # resolve: db.internal\n".data "db.internal".data
      (by decide) (by decide) (by decide) rfl).2.1,
   (resolution_failure_unchanged_idempotent resolverNone "#".data "app.conf"
      ["10.0.0.1 # resolve: db.internal\n".data] 0
      "10.0.0.1 # resolve: db.internal\n".data "db.internal".data
      (by decide) (by decide) (by decide) rfl).2.2 (fun _ => rfl)⟩

/-- C6: with the recursive flag set, directory children are processed in
listing order and the first child reporting failure short-circuits the
traversal, which propagates failure and leaves the later siblings
exactly as they were; likewise the first failing top-level input stops
the main loop, leaving the remaining top-level inputs untouched. -/
theorem traversal_short_circuits_on_first_failure
    (cfg : Config) (nm : String) (pre : List Entry) (bad : Entry)
    (post : List Entry)
    (hpre : ∀ e ∈ pre, (resolveEntry cfg e).2 = true)
    (hbad : (resolveEntry cfg bad).2 = false) :
    (cfg.recursive = true →
      resolveEntry cfg (.dir nm (pre ++ bad :: post))
        = ([.dir nm ((pre.map fun e => (resolveEntry cfg e).1).flatten
            ++ (resolveEntry cfg bad).1 ++ post)], false)) ∧
    mainLoop cfg (pre ++ bad :: post)
      = (pre.map fun e => (resolveEntry cfg e).1).flatten
          ++ (resolveEntry cfg bad).1 ++ post := by
  have hc := resolveChildren_append_fail cfg bad post pre hpre hbad
  refine ⟨fun hrec => ?_, mainLoop_append_fail cfg bad post pre hpre hbad⟩
  rw [resolveEntry_dir_rec cfg nm _ hrec, hc]

/-- Witness for C6: directory `d` with children `a`, then a dangling
symlink `x` (which fails the existence check), then `b`; and the same
list as top-level inputs. -/
theorem traversal_short_circuits_on_first_failure_witness :
    (cfgRec.recursive = true →
      resolveEntry cfgRec
          (.dir "d" ([.file "a" []] ++ Entry.broken "x" :: [.file "b" []]))
        = ([.dir "d" ((([.file "a" []] : List Entry).map
              fun e => (resolveEntry cfgRec e).1).flatten
            ++ (resolveEntry cfgRec (Entry.broken "x")).1
            ++ [.file "b" []])], false)) ∧
    mainLoop cfgRec ([.file "a" []] ++ Entry.broken "x" :: [.file "b" []])
      = (([.file "a" []] : List Entry).map
            fun e => (resolveEntry cfgRec e).1).flatten
          ++ (resolveEntry cfgRec (Entry.broken "x")).1 ++ [.file "b" []] :=
  traversal_short_circuits_on_first_failure cfgRec "d"
    [.file "a" []] (Entry.broken "x") [.file "b" []]
    (by
      intro e he
      simp only [List.mem_singleton] at he
      subst he
      simp [resolveEntry_file])
    (by simp [resolveEntry_broken])

/-- C7: `_resolve` on a regular file processed to completion returns
`True`, whatever the resolver does and however many lines are ambiguous
or fail to resolve. -/
theorem rewrite_file_always_returns_true (cfg : Config) (nm : String)
    (lines : List (List Char)) :
    (resolveEntry cfg (.file nm lines)).2 = true := by
  rw [resolveEntry_file]

/-- C8: a traversal that fails because the path does not exist, or
because it is a directory and the recursive flag is not set, reports
failure with the tree exactly as it was: no file content is modified
(the original is only replaced by the scratch file after all lines are
processed, and these failing branches never reach that step). -/
theorem failed_traversal_leaves_tree_unchanged (cfg : Config) (nm : String)
    (cs : List Entry) :
    resolveEntry cfg (.broken nm) = ([.broken nm], false) ∧
    (cfg.recursive = false →
      resolveEntry cfg (.dir nm cs) = ([.dir nm cs], false)) :=
  ⟨resolveEntry_broken cfg nm, fun h => resolveEntry_dir_norec cfg nm cs h⟩

/-- Witness for C8: a missing path, and a directory holding a real file,
without the recursive flag. -/
theorem failed_traversal_leaves_tree_unchanged_witness :
    resolveEntry cfgPlain (.broken "gone.conf") = ([.broken "gone.conf"], false) ∧
    resolveEntry cfgPlain (.dir "etc" [.file "a.conf" ["x\n".data]])
      = ([.dir "etc" [.file "a.conf" ["x\n".data]]], false) :=
  ⟨(failed_traversal_leaves_tree_unchanged cfgPlain "gone.conf" []).1,
   (failed_traversal_leaves_tree_unchanged cfgPlain "etc"
      [.file "a.conf" ["x\n".data]]).2 rfl⟩

/-- C9: traversal does not exclude backup artifacts — a file named
`<n>.bk` is rewritten like any other regular file, and with the backup
flag set it is itself first copied to `<n>.bk.bk` before being edited. -/
theorem backup_file_rewritten_and_rebackuped (cfg : Config) (n : String)
    (lines : List (List Char)) (hb : cfg.backup = true) :
    resolveEntry cfg (.file (n ++ ".bk") lines)
      = ([.file (n ++ ".bk.bk") lines,
          .file (n ++ ".bk")
            (processFileLines cfg.resolver cfg.comment lines)], true) := by
  rw [resolveEntry_file]
  unfold fileResultEntries
  rw [hb]
  have hname : (n ++ ".bk") ++ ".bk" = n ++ ".bk.bk" := by
    rw [String.append_assoc]
    rfl
  rw [if_pos rfl, hname]

/-- Witness for C9: the pre-existing backup `app.conf.bk` is processed
and re-backed-up to `app.conf.bk.bk`. -/
theorem backup_file_rewritten_and_rebackuped_witness :
    resolveEntry cfgBackup (.file ("app.conf" ++ ".bk") ["x\n".data])
      = ([.file ("app.conf" ++ ".bk.bk") ["x\n".data],
          .file ("app.conf" ++ ".bk")
            (processFileLines cfgBackup.resolver cfgBackup.comment
              ["x\n".data])], true) :=
  backup_file_rewritten_and_rebackuped cfgBackup "app.conf" ["x\n".data] rfl

/-- C10: on a line whose only dotted-quad occurrence is the hostname
token of the directive itself — `# resolve: 1.2.3.4` — the trigger
captures `1.2.3.4`, the address count check passes with exactly 1, and
successful resolution replaces the hostname token inside the directive
with the resolved address. -/
theorem directive_host_counted_and_replaced
    (resolver : List Char → Option (List Char)) (ip : List Char)
    (h : resolver "1.2.3.4".data = some ip) :
    triggerSearch "#".data "# resolve: 1.2.3.4\n".data
        = some "1.2.3.4".data ∧
    findall "# resolve: 1.2.3.4\n".data = ["1.2.3.4".data] ∧
    processLine resolver "#".data "# resolve: 1.2.3.4\n".data
      = "# resolve: ".data ++ ip ++ ['\n'] := by
  have h1 : triggerSearch "#".data "# resolve: 1.2.3.4\n".data
      = some "1.2.3.4".data := by decide
  have h2 : findall "# resolve: 1.2.3.4\n".data = ["1.2.3.4".data] := by
    decide
  refine ⟨h1, h2, ?_⟩
  have hlen : (findall "# resolve: 1.2.3.4\n".data).length = 1 := by
    rw [h2]
    rfl
  unfold processLine
  rw [processLineO_resolved h1 hlen h]
  rfl

/-- Witness for C10 with a resolver sending `1.2.3.4` to `198.51.100.7`. -/
theorem directive_host_counted_and_replaced_witness :
    triggerSearch "#".data "# resolve: 1.2.3.4\n".data
        = some "1.2.3.4".data ∧
    findall "# resolve: 1.2.3.4\n".data = ["1.2.3.4".data] ∧
    processLine (fun _ => some "198.51.100.7".data) "#".data
        "# resolve: 1.2.3.4\n".data
      = "# resolve: ".data ++ "198.51.100.7".data ++ ['\n'] :=
  directive_host_counted_and_replaced
    (fun _ => some "198.51.100.7".data) "198.51.100.7".data rfl

end Resolve
